import Mathlib

/-
Verification of the Pomodoro session service core (`src/main.rs`).

The Rust source is shallowly embedded: `Instant` is modelled as a natural
number of seconds (Rust's `Instant` is monotone and `saturating_duration_since`
clamps at zero, which truncated natural subtraction `now - start` reproduces),
the `u64` fields as naturals, and each axum handler as a pure function from an
`AppState` and the instants it reads to the pair of the new `AppState` and its
response.  The `HashMap<u64, PomodoroSession>` registry is embedded as an
association list with `findS` (lookup), `setFirst` (the in-place mutation done
through `get_mut`) and `insertS` (HashMap `insert`: replace if present,
otherwise add).
-/

set_option maxHeartbeats 1000000

/-- `enum PomodoroState` from `main.rs`. -/
inductive PomodoroState where
  | Idle
  | Running
  | Paused
  | Finished
  deriving DecidableEq

/-- `struct PomodoroSession` from `main.rs`; instants are naturals (seconds). -/
structure PomodoroSession where
  id : Nat
  work_minutes : Nat
  break_minutes : Nat
  state : PomodoroState
  started_at : Option Nat
  paused_at : Option Nat
  elapsed_secs : Nat
  deriving DecidableEq

/-- `PomodoroSession::new`. -/
def PomodoroSession.new (id work_minutes break_minutes : Nat) : PomodoroSession :=
  { id := id
    work_minutes := work_minutes
    break_minutes := break_minutes
    state := PomodoroState.Idle
    started_at := none
    paused_at := none
    elapsed_secs := 0 }

/-- `PomodoroSession::total_work_secs`: `self.work_minutes * 60`. -/
def total_work_secs (s : PomodoroSession) : Nat :=
  s.work_minutes * 60

/-- `PomodoroSession::update_elapsed`, with the instant `Instant::now()` would
return passed in as `now`.  `now - start` is natural (truncated) subtraction,
matching `saturating_duration_since`. -/
def update_elapsed (now : Nat) (s : PomodoroSession) : PomodoroSession :=
  match s.state, s.started_at with
  | PomodoroState.Running, some start =>
      let e := s.elapsed_secs + (now - start)
      { s with
        elapsed_secs := e
        started_at := some now
        state := if total_work_secs s ≤ e then PomodoroState.Finished
                 else PomodoroState.Running }
  | _, _ => s

/-- `PomodoroSession::remaining_secs` mutates `self` (via `update_elapsed`) and
returns the remaining seconds; embedded as returning the pair. -/
def remaining_secs (now : Nat) (s : PomodoroSession) : Nat × PomodoroSession :=
  let s2 := update_elapsed now s
  (total_work_secs s2 - s2.elapsed_secs, s2)

/-- `struct SessionResponse` from `main.rs`. -/
structure SessionResponse where
  id : Nat
  work_minutes : Nat
  break_minutes : Nat
  state : PomodoroState
  elapsed_secs : Nat
  remaining_secs : Nat
  deriving DecidableEq

/-- `fn to_response(mut s: PomodoroSession) -> SessionResponse`: reconciles the
(private, by-value) session and reads its fields. -/
def to_response (now : Nat) (s : PomodoroSession) : SessionResponse :=
  let r := remaining_secs now s
  { id := r.2.id
    work_minutes := r.2.work_minutes
    break_minutes := r.2.break_minutes
    state := r.2.state
    elapsed_secs := r.2.elapsed_secs
    remaining_secs := r.1 }

/-- Lookup in the registry's association list (`HashMap::get`). -/
def findS (id : Nat) : List (Nat × PomodoroSession) → Option PomodoroSession
  | [] => none
  | p :: rest => if p.1 = id then some p.2 else findS id rest

/-- In-place overwrite of the entry with the given key, as performed through
`HashMap::get_mut`; leaves the list unchanged when the key is absent. -/
def setFirst (id : Nat) (s : PomodoroSession) :
    List (Nat × PomodoroSession) → List (Nat × PomodoroSession)
  | [] => []
  | p :: rest => if p.1 = id then (id, s) :: rest else p :: setFirst id s rest

/-- `HashMap::insert`: replace the entry if the key is present, else add it. -/
def insertS (id : Nat) (s : PomodoroSession) (l : List (Nat × PomodoroSession)) :
    List (Nat × PomodoroSession) :=
  if (findS id l).isSome then setFirst id s l else (id, s) :: l

/-- `struct AppState` from `main.rs` (the mutex-guarded registry). -/
structure AppState where
  next_id : Nat
  sessions : List (Nat × PomodoroSession)
  deriving DecidableEq

/-- The registry at process start (`AppState::default()`). -/
def initialState : AppState :=
  { next_id := 0, sessions := [] }

/-- `create_session` handler: bumps the counter, stores a fresh `Idle` session
under the new id, and answers with `to_response` of the (pre-insert) clone. -/
def create_session (st : AppState) (now work_minutes break_minutes : Nat) :
    AppState × SessionResponse :=
  let id := st.next_id + 1
  let session := PomodoroSession.new id work_minutes break_minutes
  ({ next_id := id, sessions := insertS id session st.sessions },
   to_response now session)

/-- `list_sessions` handler: responds with `to_response` of a clone of every
stored session; the stored state is untouched. -/
def list_sessions (st : AppState) (now : Nat) :
    AppState × List SessionResponse :=
  (st, st.sessions.map (fun p => to_response now p.2))

/-- `get_session` handler: `NotFound` (modelled `none`) when the id is absent,
otherwise `to_response` of a clone; the stored state is untouched. -/
def get_session (st : AppState) (now : Nat) (id : Nat) :
    AppState × Option SessionResponse :=
  (st, (findS id st.sessions).map (to_response now))

/-- `start_session` handler.  `now1` is the `Instant::now()` of the reset
branch, `now2` the one read inside `to_response`. -/
def start_session (st : AppState) (now1 now2 : Nat) (id : Nat) :
    AppState × Option SessionResponse :=
  match findS id st.sessions with
  | none => (st, none)
  | some s =>
      let s2 :=
        if s.state = PomodoroState.Idle ∨ s.state = PomodoroState.Finished then
          { s with
            elapsed_secs := 0
            started_at := some now1
            paused_at := none
            state := PomodoroState.Running }
        else s
      ({ st with sessions := setFirst id s2 st.sessions },
       some (to_response now2 s2))

/-- `pause_session` handler.  On a `Running` session it reconciles the stored
session in place (`update_elapsed` at `now1`) and then unconditionally writes
`Paused` over whatever state the reconcile produced. -/
def pause_session (st : AppState) (now1 now2 : Nat) (id : Nat) :
    AppState × Option SessionResponse :=
  match findS id st.sessions with
  | none => (st, none)
  | some s =>
      let s2 :=
        if s.state = PomodoroState.Running then
          { update_elapsed now1 s with state := PomodoroState.Paused }
        else s
      ({ st with sessions := setFirst id s2 st.sessions },
       some (to_response now2 s2))

/-- `resume_session` handler. -/
def resume_session (st : AppState) (now1 now2 : Nat) (id : Nat) :
    AppState × Option SessionResponse :=
  match findS id st.sessions with
  | none => (st, none)
  | some s =>
      let s2 :=
        if s.state = PomodoroState.Paused then
          { s with
            started_at := some now1
            paused_at := none
            state := PomodoroState.Running }
        else s
      ({ st with sessions := setFirst id s2 st.sessions },
       some (to_response now2 s2))

/-- One registry operation, carrying the instants that affect the stored state
(the instant consumed by `to_response` never does, so it is not recorded). -/
inductive Op where
  | create (work_minutes break_minutes : Nat)
  | start (id now : Nat)
  | pause (id now : Nat)
  | resume (id now : Nat)
  | get (id : Nat)
  | list
  deriving DecidableEq

/-- Effect of one operation on the stored registry state. -/
def stepOp (st : AppState) : Op → AppState
  | Op.create wm bm => (create_session st 0 wm bm).1
  | Op.start id now => (start_session st now now id).1
  | Op.pause id now => (pause_session st now now id).1
  | Op.resume id now => (resume_session st now now id).1
  | Op.get id => (get_session st 0 id).1
  | Op.list => (list_sessions st 0).1

/-- Running a sequence of operations against the registry. -/
def runOps (st : AppState) (ops : List Op) : AppState :=
  ops.foldl stepOp st

/-- The state-relevant instants an operation reads. -/
def Op.times : Op → List Nat
  | Op.start _ now => [now]
  | Op.pause _ now => [now]
  | Op.resume _ now => [now]
  | _ => []

/-- Whether an operation is a `get`, `list` or `pause` call. -/
def Op.isGetListPause : Op → Bool
  | Op.get _ => true
  | Op.list => true
  | Op.pause _ _ => true
  | _ => false

/-- The `elapsed_secs` a client observes for session `id` by issuing `get` at
instant `now` (0 when the id is absent). -/
def obsAt (id now : Nat) (st : AppState) : Nat :=
  match (get_session st now id).2 with
  | some r => r.elapsed_secs
  | none => 0

/-- Characterization of `update_elapsed` on a `Running` session with a start
instant: accrue `now - start`, move the start marker to `now`, finish when the
target is reached. -/
theorem update_elapsed_running (s : PomodoroSession) (now t0 : Nat)
    (h1 : s.state = PomodoroState.Running) (h2 : s.started_at = some t0) :
    update_elapsed now s =
      { s with
        elapsed_secs := s.elapsed_secs + (now - t0)
        started_at := some now
        state := if total_work_secs s ≤ s.elapsed_secs + (now - t0)
                 then PomodoroState.Finished else PomodoroState.Running } := by
  cases s with
  | mk id wm bm state sa pa e =>
      cases h1
      cases h2
      rfl

/-- `update_elapsed` leaves a session that is not `Running` untouched. -/
theorem update_elapsed_not_running (s : PomodoroSession) (now : Nat)
    (h : s.state ≠ PomodoroState.Running) : update_elapsed now s = s := by
  cases s with
  | mk id wm bm state sa pa e =>
      cases state
      · rfl
      · exact absurd rfl h
      · rfl
      · rfl

/-- `update_elapsed` leaves a session without a start marker untouched. -/
theorem update_elapsed_no_start (s : PomodoroSession) (now : Nat)
    (h : s.started_at = none) : update_elapsed now s = s := by
  cases s with
  | mk id wm bm state sa pa e =>
      cases h
      cases state <;> rfl

/-- `update_elapsed` never changes the `work_minutes` field. -/
theorem update_elapsed_work (s : PomodoroSession) (now : Nat) :
    (update_elapsed now s).work_minutes = s.work_minutes := by
  cases s with
  | mk id wm bm state sa pa e =>
      cases state <;> cases sa <;> rfl

/-- At a fixed reconciliation instant, a later instant never yields a smaller
accrued `elapsed_secs`. -/
theorem update_elapsed_mono_now (s : PomodoroSession) (n1 n2 : Nat)
    (h : n1 ≤ n2) :
    (update_elapsed n1 s).elapsed_secs ≤ (update_elapsed n2 s).elapsed_secs := by
  cases s with
  | mk id wm bm state sa pa e =>
      cases state <;> cases sa <;> simp only [update_elapsed] <;>
        first
        | exact Nat.le_refl _
        | exact Nat.add_le_add_left (Nat.sub_le_sub_right h _) _


/-- A successful lookup exhibits a stored pair. -/
theorem findS_mem (id : Nat) (s : PomodoroSession)
    (l : List (Nat × PomodoroSession)) (h : findS id l = some s) :
    (id, s) ∈ l := by
  induction l with
  | nil => simp [findS] at h
  | cons p rest ih =>
      by_cases hp : p.1 = id
      · simp only [findS, hp, if_pos] at h
        cases h
        exact List.mem_cons.mpr (Or.inl (by rw [← hp]))
      · simp only [findS, hp, if_neg, not_false_iff] at h
        exact List.mem_cons_of_mem _ (ih h)

/-- Overwriting the entry found by a lookup with its own value is a no-op. -/
theorem setFirst_self (id : Nat) (s : PomodoroSession)
    (l : List (Nat × PomodoroSession)) (h : findS id l = some s) :
    setFirst id s l = l := by
  induction l with
  | nil => simp [findS] at h
  | cons p rest ih =>
      by_cases hp : p.1 = id
      · simp only [findS, hp, if_pos] at h
        cases h
        simp only [setFirst, hp, if_pos]
        rw [← hp]
      · simp only [findS, hp, if_neg, not_false_iff] at h
        simp only [setFirst, hp, if_neg, not_false_iff]
        rw [ih h]

/-- Looking up the key just overwritten returns the new value (when present). -/
theorem findS_setFirst_self (id : Nat) (s s0 : PomodoroSession)
    (l : List (Nat × PomodoroSession)) (h : findS id l = some s0) :
    findS id (setFirst id s l) = some s := by
  induction l with
  | nil => simp [findS] at h
  | cons p rest ih =>
      by_cases hp : p.1 = id
      · simp [setFirst, hp, findS]
      · simp only [findS, hp, if_neg, not_false_iff] at h
        simp [setFirst, hp, findS, ih h]

/-- Overwriting one key leaves lookups of other keys unchanged. -/
theorem findS_setFirst_ne (id j : Nat) (s : PomodoroSession)
    (l : List (Nat × PomodoroSession)) (h : j ≠ id) :
    findS j (setFirst id s l) = findS j l := by
  induction l with
  | nil => rfl
  | cons p rest ih =>
      by_cases hp : p.1 = id
      · have hpj : p.1 ≠ j := by
          rw [hp]
          exact fun he => h he.symm
        have hij : id ≠ j := fun he => h he.symm
        simp [setFirst, hp, findS, hpj, hij]
      · simp only [setFirst, hp, if_neg, not_false_iff, findS]
        by_cases hj : p.1 = j
        · rw [if_pos hj, if_pos hj]
        · rw [if_neg hj, if_neg hj]
          exact ih

/-- Every pair of the overwritten list is the new pair or an old one. -/
theorem setFirst_mem (id : Nat) (s : PomodoroSession)
    (l : List (Nat × PomodoroSession)) :
    ∀ p ∈ setFirst id s l, p = (id, s) ∨ p ∈ l := by
  induction l with
  | nil => intro p hp; simp [setFirst] at hp
  | cons q rest ih =>
      intro p hp
      by_cases hq : q.1 = id
      · simp only [setFirst, hq, if_pos] at hp
        rcases List.mem_cons.mp hp with h1 | h1
        · exact Or.inl h1
        · exact Or.inr (List.mem_cons_of_mem _ h1)
      · simp only [setFirst, hq, if_neg, not_false_iff] at hp
        rcases List.mem_cons.mp hp with h1 | h1
        · exact Or.inr (h1 ▸ List.mem_cons_self _ _)
        · rcases ih p h1 with h2 | h2
          · exact Or.inl h2
          · exact Or.inr (List.mem_cons_of_mem _ h2)

/-- A key strictly above every stored key is absent. -/
theorem findS_none_of_big (m id : Nat) (l : List (Nat × PomodoroSession))
    (h : ∀ p ∈ l, p.1 ≤ m) (hid : m < id) : findS id l = none := by
  induction l with
  | nil => rfl
  | cons p rest ih =>
      have hp : p.1 ≤ m := h p (List.mem_cons_self _ _)
      have hne : p.1 ≠ id := by
        intro he
        exact Nat.lt_irrefl _ (Nat.lt_of_lt_of_le hid (he ▸ hp))
      simp only [findS, hne, if_neg, not_false_iff]
      exact ih (fun q hq => h q (List.mem_cons_of_mem _ hq))

/-- The observation of a session is the `elapsed_secs` field of its
reconciliation at the observing instant. -/
theorem obsAt_eq (id now : Nat) (st : AppState) :
    obsAt id now st =
      match findS id st.sessions with
      | some s => (update_elapsed now s).elapsed_secs
      | none => 0 := by
  cases h : findS id st.sessions <;>
    simp [obsAt, get_session, h, to_response, remaining_secs]

/-- Structural invariant of every reachable registry state: `Idle` sessions
have no accrued time, the stored state is never `Finished` (reads reconcile
only clones, and `pause_session` overwrites the `Finished` its own reconcile
may produce), and every stored key is at most the id counter. -/
def SessInv (st : AppState) : Prop :=
  ∀ p ∈ st.sessions,
    (p.2.state = PomodoroState.Idle → p.2.elapsed_secs = 0)
    ∧ p.2.state ≠ PomodoroState.Finished
    ∧ p.1 ≤ st.next_id

/-- Invariant: a stored `Running` session always carries a start instant. -/
def StartedInv (st : AppState) : Prop :=
  ∀ p ∈ st.sessions,
    p.2.state = PomodoroState.Running → p.2.started_at ≠ none

theorem stepOp_get (st : AppState) (id : Nat) : stepOp st (Op.get id) = st :=
  rfl

theorem stepOp_list (st : AppState) : stepOp st Op.list = st :=
  rfl

theorem stepOp_create (st : AppState) (wm bm : Nat) :
    stepOp st (Op.create wm bm) =
      { next_id := st.next_id + 1
        sessions := insertS (st.next_id + 1)
          (PomodoroSession.new (st.next_id + 1) wm bm) st.sessions } :=
  rfl

theorem stepOp_start_none (st : AppState) (id n : Nat)
    (h : findS id st.sessions = none) : stepOp st (Op.start id n) = st := by
  simp only [stepOp, start_session]
  rw [h]

theorem stepOp_start_some (st : AppState) (id n : Nat) (s : PomodoroSession)
    (h : findS id st.sessions = some s) :
    stepOp st (Op.start id n) =
      { st with
        sessions := setFirst id
          (if s.state = PomodoroState.Idle ∨ s.state = PomodoroState.Finished
           then { s with
                  elapsed_secs := 0
                  started_at := some n
                  paused_at := none
                  state := PomodoroState.Running }
           else s) st.sessions } := by
  simp only [stepOp, start_session]
  rw [h]

theorem stepOp_pause_none (st : AppState) (id n : Nat)
    (h : findS id st.sessions = none) : stepOp st (Op.pause id n) = st := by
  simp only [stepOp, pause_session]
  rw [h]

theorem stepOp_pause_some (st : AppState) (id n : Nat) (s : PomodoroSession)
    (h : findS id st.sessions = some s) :
    stepOp st (Op.pause id n) =
      { st with
        sessions := setFirst id
          (if s.state = PomodoroState.Running
           then { update_elapsed n s with state := PomodoroState.Paused }
           else s) st.sessions } := by
  simp only [stepOp, pause_session]
  rw [h]

theorem stepOp_resume_none (st : AppState) (id n : Nat)
    (h : findS id st.sessions = none) : stepOp st (Op.resume id n) = st := by
  simp only [stepOp, resume_session]
  rw [h]

theorem stepOp_resume_some (st : AppState) (id n : Nat) (s : PomodoroSession)
    (h : findS id st.sessions = some s) :
    stepOp st (Op.resume id n) =
      { st with
        sessions := setFirst id
          (if s.state = PomodoroState.Paused
           then { s with
                  started_at := some n
                  paused_at := none
                  state := PomodoroState.Running }
           else s) st.sessions } := by
  simp only [stepOp, resume_session]
  rw [h]

theorem sessInv_step (st : AppState) (op : Op) (h : SessInv st) :
    SessInv (stepOp st op) := by
  cases op with
  | create wm bm =>
      rw [stepOp_create]
      have hnone : findS (st.next_id + 1) st.sessions = none :=
        findS_none_of_big st.next_id _ st.sessions
          (fun p hp => (h p hp).2.2) (Nat.lt_succ_self _)
      intro p hp
      simp only [insertS, hnone, Option.isSome_none, Bool.false_eq_true,
        if_false] at hp
      rcases List.mem_cons.mp hp with h1 | h1
      · subst h1
        exact ⟨fun _ => rfl, fun he => PomodoroState.noConfusion he,
          Nat.le_refl _⟩
      · obtain ⟨c1, c2, c3⟩ := h p h1
        exact ⟨c1, c2, Nat.le_succ_of_le c3⟩
  | start id n =>
      cases hf : findS id st.sessions with
      | none =>
          rw [stepOp_start_none st id n hf]
          exact h
      | some s =>
          rw [stepOp_start_some st id n s hf]
          intro p hp
          rcases setFirst_mem _ _ _ p hp with h1 | h1
          · subst h1
            have hid : id ≤ st.next_id := (h _ (findS_mem id s _ hf)).2.2
            by_cases hc : s.state = PomodoroState.Idle ∨
                s.state = PomodoroState.Finished
            · rw [if_pos hc]
              exact ⟨fun he => PomodoroState.noConfusion he,
                fun he => PomodoroState.noConfusion he, hid⟩
            · rw [if_neg hc]
              obtain ⟨c1, c2, _⟩ := h _ (findS_mem id s _ hf)
              exact ⟨c1, c2, hid⟩
          · exact h p h1
  | pause id n =>
      cases hf : findS id st.sessions with
      | none =>
          rw [stepOp_pause_none st id n hf]
          exact h
      | some s =>
          rw [stepOp_pause_some st id n s hf]
          intro p hp
          rcases setFirst_mem _ _ _ p hp with h1 | h1
          · subst h1
            have hid : id ≤ st.next_id := (h _ (findS_mem id s _ hf)).2.2
            by_cases hc : s.state = PomodoroState.Running
            · rw [if_pos hc]
              exact ⟨fun he => PomodoroState.noConfusion he,
                fun he => PomodoroState.noConfusion he, hid⟩
            · rw [if_neg hc]
              obtain ⟨c1, c2, _⟩ := h _ (findS_mem id s _ hf)
              exact ⟨c1, c2, hid⟩
          · exact h p h1
  | resume id n =>
      cases hf : findS id st.sessions with
      | none =>
          rw [stepOp_resume_none st id n hf]
          exact h
      | some s =>
          rw [stepOp_resume_some st id n s hf]
          intro p hp
          rcases setFirst_mem _ _ _ p hp with h1 | h1
          · subst h1
            have hid : id ≤ st.next_id := (h _ (findS_mem id s _ hf)).2.2
            by_cases hc : s.state = PomodoroState.Paused
            · rw [if_pos hc]
              exact ⟨fun he => PomodoroState.noConfusion he,
                fun he => PomodoroState.noConfusion he, hid⟩
            · rw [if_neg hc]
              obtain ⟨c1, c2, _⟩ := h _ (findS_mem id s _ hf)
              exact ⟨c1, c2, hid⟩
          · exact h p h1
  | get id =>
      rw [stepOp_get]
      exact h
  | list =>
      rw [stepOp_list]
      exact h

theorem startedInv_step (st : AppState) (op : Op) (h : StartedInv st) :
    StartedInv (stepOp st op) := by
  cases op with
  | create wm bm =>
      rw [stepOp_create]
      intro p hp
      unfold insertS at hp
      by_cases hb : (findS (st.next_id + 1) st.sessions).isSome
      · rw [if_pos hb] at hp
        rcases setFirst_mem _ _ _ p hp with h1 | h1
        · subst h1
          exact fun he => PomodoroState.noConfusion he
        · exact h p h1
      · rw [if_neg hb] at hp
        rcases List.mem_cons.mp hp with h1 | h1
        · subst h1
          exact fun he => PomodoroState.noConfusion he
        · exact h p h1
  | start id n =>
      cases hf : findS id st.sessions with
      | none =>
          rw [stepOp_start_none st id n hf]
          exact h
      | some s =>
          rw [stepOp_start_some st id n s hf]
          intro p hp
          rcases setFirst_mem _ _ _ p hp with h1 | h1
          · subst h1
            by_cases hc : s.state = PomodoroState.Idle ∨
                s.state = PomodoroState.Finished
            · rw [if_pos hc]
              exact fun _ he => Option.noConfusion he
            · rw [if_neg hc]
              exact h _ (findS_mem id s _ hf)
          · exact h p h1
  | pause id n =>
      cases hf : findS id st.sessions with
      | none =>
          rw [stepOp_pause_none st id n hf]
          exact h
      | some s =>
          rw [stepOp_pause_some st id n s hf]
          intro p hp
          rcases setFirst_mem _ _ _ p hp with h1 | h1
          · subst h1
            by_cases hc : s.state = PomodoroState.Running
            · rw [if_pos hc]
              exact fun he => PomodoroState.noConfusion he
            · rw [if_neg hc]
              exact h _ (findS_mem id s _ hf)
          · exact h p h1
  | resume id n =>
      cases hf : findS id st.sessions with
      | none =>
          rw [stepOp_resume_none st id n hf]
          exact h
      | some s =>
          rw [stepOp_resume_some st id n s hf]
          intro p hp
          rcases setFirst_mem _ _ _ p hp with h1 | h1
          · subst h1
            by_cases hc : s.state = PomodoroState.Paused
            · rw [if_pos hc]
              exact fun _ he => Option.noConfusion he
            · rw [if_neg hc]
              exact h _ (findS_mem id s _ hf)
          · exact h p h1
  | get id =>
      rw [stepOp_get]
      exact h
  | list =>
      rw [stepOp_list]
      exact h

theorem sessInv_runOps (st : AppState) (ops : List Op) (h : SessInv st) :
    SessInv (runOps st ops) := by
  induction ops generalizing st with
  | nil => exact h
  | cons op rest ih => exact ih _ (sessInv_step st op h)

theorem startedInv_runOps (st : AppState) (ops : List Op) (h : StartedInv st) :
    StartedInv (runOps st ops) := by
  induction ops generalizing st with
  | nil => exact h
  | cons op rest ih => exact ih _ (startedInv_step st op h)

theorem sessInv_initial : SessInv initialState := by
  intro p hp
  exact absurd hp (List.not_mem_nil p)

theorem startedInv_initial : StartedInv initialState := by
  intro p hp
  exact absurd hp (List.not_mem_nil p)

theorem obsAt_none (id now : Nat) (st : AppState)
    (h : findS id st.sessions = none) : obsAt id now st = 0 := by
  simp [obsAt, get_session, h]

theorem obsAt_some (id now : Nat) (st : AppState) (s : PomodoroSession)
    (h : findS id st.sessions = some s) :
    obsAt id now st = (update_elapsed now s).elapsed_secs := by
  simp [obsAt, get_session, h, to_response, remaining_secs]

theorem obsAt_setFirst_ne (st : AppState) (j id lo : Nat)
    (s2 : PomodoroSession) (h : ¬j = id) :
    obsAt id lo { st with sessions := setFirst j s2 st.sessions } =
      obsAt id lo st := by
  have heq : findS id (setFirst j s2 st.sessions) = findS id st.sessions :=
    findS_setFirst_ne j id s2 st.sessions (fun he => h he.symm)
  cases hg : findS id st.sessions with
  | none =>
      rw [obsAt_none id lo _ (heq.trans hg), obsAt_none id lo st hg]
  | some u =>
      rw [obsAt_some id lo _ u (heq.trans hg), obsAt_some id lo st u hg]

/-- Core step of the monotonicity argument: one operation whose instants are
all at least `lo` never decreases the observation of any session at `lo`. -/
theorem obsAt_step_ge (st : AppState) (op : Op) (id lo : Nat)
    (hinv : SessInv st) (ht : ∀ t ∈ op.times, lo ≤ t) :
    obsAt id lo st ≤ obsAt id lo (stepOp st op) := by
  cases op with
  | get j => exact Nat.le_refl _
  | list => exact Nat.le_refl _
  | create wm bm =>
      have hnone : findS (st.next_id + 1) st.sessions = none :=
        findS_none_of_big st.next_id _ st.sessions
          (fun p hp => (hinv p hp).2.2) (Nat.lt_succ_self _)
      rw [stepOp_create]
      cases hf : findS id st.sessions with
      | none =>
          rw [obsAt_none id lo st hf]
          exact Nat.zero_le _
      | some s =>
          have hid : id ≤ st.next_id := (hinv _ (findS_mem id s _ hf)).2.2
          have hne : ¬st.next_id + 1 = id := by omega
          have hfind2 : findS id
              (insertS (st.next_id + 1)
                (PomodoroSession.new (st.next_id + 1) wm bm) st.sessions)
              = some s := by
            unfold insertS
            rw [hnone]
            simp only [Option.isSome_none, Bool.false_eq_true, if_false, findS]
            rw [if_neg hne]
            exact hf
          rw [obsAt_some id lo st s hf, obsAt_some id lo _ s hfind2]
  | start j n =>
      cases hf : findS j st.sessions with
      | none =>
          rw [stepOp_start_none st j n hf]
      | some s =>
          by_cases hj : j = id
          · subst hj
            obtain ⟨c1, c2, _⟩ := hinv _ (findS_mem j s _ hf)
            by_cases hc : s.state = PomodoroState.Idle ∨
                s.state = PomodoroState.Finished
            · have hni : s.state = PomodoroState.Idle := hc.resolve_right c2
              have hs0 : obsAt j lo st = 0 := by
                rw [obsAt_some j lo st s hf,
                  update_elapsed_not_running s lo (fun he => by
                    rw [hni] at he
                    exact PomodoroState.noConfusion he)]
                exact c1 hni
              rw [hs0]
              exact Nat.zero_le _
            · rw [stepOp_start_some st j n s hf, if_neg hc,
                setFirst_self j s st.sessions hf]
          · rw [stepOp_start_some st j n s hf, obsAt_setFirst_ne st j id lo _ hj]
  | pause j n =>
      have hlon : lo ≤ n := ht n (List.mem_cons_self _ _)
      cases hf : findS j st.sessions with
      | none =>
          rw [stepOp_pause_none st j n hf]
      | some s =>
          by_cases hj : j = id
          · subst hj
            by_cases hc : s.state = PomodoroState.Running
            · rw [stepOp_pause_some st j n s hf, if_pos hc]
              have hfind2 : findS j (setFirst j
                  { update_elapsed n s with state := PomodoroState.Paused }
                  st.sessions) =
                  some { update_elapsed n s with state := PomodoroState.Paused } :=
                findS_setFirst_self j _ s st.sessions hf
              rw [obsAt_some j lo st s hf, obsAt_some j lo _ _ hfind2,
                update_elapsed_not_running
                  { update_elapsed n s with state := PomodoroState.Paused } lo
                  (fun he => PomodoroState.noConfusion he)]
              exact update_elapsed_mono_now s lo n hlon
            · rw [stepOp_pause_some st j n s hf, if_neg hc,
                setFirst_self j s st.sessions hf]
          · rw [stepOp_pause_some st j n s hf, obsAt_setFirst_ne st j id lo _ hj]
  | resume j n =>
      cases hf : findS j st.sessions with
      | none =>
          rw [stepOp_resume_none st j n hf]
      | some s =>
          by_cases hj : j = id
          · subst hj
            by_cases hc : s.state = PomodoroState.Paused
            · rw [stepOp_resume_some st j n s hf, if_pos hc]
              have hfind2 : findS j (setFirst j
                  { s with
                    started_at := some n
                    paused_at := none
                    state := PomodoroState.Running } st.sessions) =
                  some { s with
                    started_at := some n
                    paused_at := none
                    state := PomodoroState.Running } :=
                findS_setFirst_self j _ s st.sessions hf
              rw [obsAt_some j lo st s hf, obsAt_some j lo _ _ hfind2,
                update_elapsed_not_running s lo (fun he => by
                  rw [hc] at he
                  exact PomodoroState.noConfusion he)]
              exact Nat.le_add_right _ _
            · rw [stepOp_resume_some st j n s hf, if_neg hc,
                setFirst_self j s st.sessions hf]
          · rw [stepOp_resume_some st j n s hf, obsAt_setFirst_ne st j id lo _ hj]

theorem obsAt_runOps_ge (st : AppState) (ops : List Op) (id lo : Nat)
    (hinv : SessInv st) (ht : ∀ op ∈ ops, ∀ t ∈ Op.times op, lo ≤ t) :
    obsAt id lo st ≤ obsAt id lo (runOps st ops) := by
  induction ops generalizing st with
  | nil => exact Nat.le_refl _
  | cons op rest ih =>
      exact Nat.le_trans
        (obsAt_step_ge st op id lo hinv (ht op (List.mem_cons_self _ _)))
        (ih (stepOp st op) (sessInv_step st op hinv)
          (fun o ho t htt => ht o (List.mem_cons_of_mem _ ho) t htt))

theorem obsAt_mono_time (id n1 n2 : Nat) (st : AppState) (h : n1 ≤ n2) :
    obsAt id n1 st ≤ obsAt id n2 st := by
  cases hf : findS id st.sessions with
  | none => rw [obsAt_none id n1 st hf, obsAt_none id n2 st hf]
  | some s =>
      rw [obsAt_some id n1 st s hf, obsAt_some id n2 st s hf]
      exact update_elapsed_mono_now s n1 n2 h

/-- C3: for every session, the observable `elapsed_secs` is monotonically
non-decreasing over the session's lifetime.  Starting from the initial
registry, run any history `ops`, observe session `id` at instant `n1`, run any
further operations `more` whose instants are at least `n1` (instants only move
forward), and observe again at any `n2 ≥ n1`: the second observation is never
smaller.  This covers `start` on `Idle` or `Finished` sessions: a stored
`Idle` session always has `elapsed_secs = 0` and a stored `Finished` session
is unreachable, so the reset in `start_session` never discards accrued time. -/
theorem C3_elapsed_monotone (ops more : List Op) (id n1 n2 : Nat)
    (h12 : n1 ≤ n2)
    (hmore : ∀ op ∈ more, ∀ t ∈ Op.times op, n1 ≤ t) :
    obsAt id n1 (runOps initialState ops) ≤
      obsAt id n2 (runOps (runOps initialState ops) more) :=
  Nat.le_trans
    (obsAt_runOps_ge (runOps initialState ops) more id n1
      (sessInv_runOps initialState ops sessInv_initial) hmore)
    (obsAt_mono_time id n1 n2 (runOps (runOps initialState ops) more) h12)

theorem C3_elapsed_monotone_witness :
    obsAt 1 3 (runOps initialState [Op.create 25 5, Op.start 1 0]) ≤
      obsAt 1 7 (runOps (runOps initialState [Op.create 25 5, Op.start 1 0])
        [Op.pause 1 5]) :=
  C3_elapsed_monotone [Op.create 25 5, Op.start 1 0] [Op.pause 1 5] 1 3 7
    (by decide) (by decide)

/-- Reconciling twice at the same instant is the same as reconciling once:
the second pass adds `now - now = 0` and re-evaluates the same finish test. -/
theorem update_elapsed_idem (now : Nat) (s : PomodoroSession) :
    update_elapsed now (update_elapsed now s) = update_elapsed now s := by
  cases s with
  | mk id wm bm state sa pa e =>
      cases state <;> cases sa <;> try rfl
      rename_i t0
      simp only [update_elapsed, total_work_secs]
      by_cases hc : wm * 60 ≤ e + (now - t0)
      · rw [if_pos hc]
      · rw [if_neg hc]
        simp only [update_elapsed, total_work_secs, Nat.sub_self, Nat.add_zero]
        rw [if_neg hc]

/-- The registry after `pause_session` does not depend on the instant read by
`to_response`, and agrees with the step function. -/
theorem pause_session_fst (st : AppState) (n1 n2 id : Nat) :
    (pause_session st n1 n2 id).1 = stepOp st (Op.pause id n1) := by
  simp only [stepOp, pause_session]
  cases findS id st.sessions <;> rfl

/-- Looking up the key just inserted by `insertS` returns the new value. -/
theorem findS_insertS_self (id : Nat) (s : PomodoroSession)
    (l : List (Nat × PomodoroSession)) : findS id (insertS id s l) = some s := by
  unfold insertS
  by_cases hb : (findS id l).isSome
  · rw [if_pos hb]
    obtain ⟨u, hu⟩ := Option.isSome_iff_exists.mp hb
    exact findS_setFirst_self id s u l hu
  · rw [if_neg hb]
    simp [findS]

/-- Truncated natural subtraction, viewed over the integers, is the clamped
difference. -/
theorem natSub_toInt (a b : Nat) :
    ((a - b : Nat) : Int) = max 0 ((a : Int) - (b : Int)) := by
  omega

/-- A stored `Paused` session is untouched by any sequence of `get`, `list`
and `pause` operations. -/
theorem paused_frozen (st : AppState) (id : Nat) (q : PomodoroSession)
    (ops : List Op) (hops : ∀ op ∈ ops, Op.isGetListPause op = true)
    (hfind : findS id st.sessions = some q)
    (hq : q.state = PomodoroState.Paused) :
    findS id (runOps st ops).sessions = some q := by
  induction ops generalizing st with
  | nil => exact hfind
  | cons op rest ih =>
      have hop := hops op (List.mem_cons_self _ _)
      have hrest : ∀ o ∈ rest, Op.isGetListPause o = true :=
        fun o ho => hops o (List.mem_cons_of_mem _ ho)
      cases op with
      | create wm bm => exact Bool.noConfusion hop
      | start j n => exact Bool.noConfusion hop
      | resume j n => exact Bool.noConfusion hop
      | get j => exact ih st hrest hfind
      | list => exact ih st hrest hfind
      | pause j n =>
          show findS id (runOps (stepOp st (Op.pause j n)) rest).sessions = some q
          cases hf : findS j st.sessions with
          | none =>
              rw [stepOp_pause_none st j n hf]
              exact ih st hrest hfind
          | some u =>
              by_cases hj : j = id
              · subst hj
                have hu : u = q := by
                  rw [hf] at hfind
                  exact Option.some.inj hfind
                subst hu
                have hnr : ¬u.state = PomodoroState.Running := by
                  rw [hq]
                  intro he
                  exact PomodoroState.noConfusion he
                rw [stepOp_pause_some st j n u hf, if_neg hnr,
                  setFirst_self j u st.sessions hf]
                exact ih st hrest hfind
              · rw [stepOp_pause_some st j n u hf]
                exact ih _ hrest
                  ((findS_setFirst_ne j id _ st.sessions
                    (fun he => hj he.symm)).trans hfind)

/-- C1 (code-bug evidence): with `work_minutes = 0`, after `create` and
`start`, a `get` reports `Finished` with `remaining_secs = 0`; yet a
subsequent `pause` moves the session out of `Finished` (a later `get` reports
`Paused`), and a second `start` does not restart it (a `get` at instant 5
still reports accrued `elapsed_secs = 5`, not a reset to 0).  The stored state
never latches `Finished`: reads reconcile only clones, and `pause_session`
overwrites the `Finished` produced by its own reconcile with `Paused`. -/
theorem C1_finished_not_latched :
    ((get_session (runOps initialState [Op.create 0 0, Op.start 1 0]) 0 1).2.map
      SessionResponse.state = some PomodoroState.Finished)
    ∧ ((get_session (runOps initialState [Op.create 0 0, Op.start 1 0]) 0 1).2.map
      SessionResponse.remaining_secs = some 0)
    ∧ ((get_session (runOps (runOps initialState [Op.create 0 0, Op.start 1 0])
        [Op.pause 1 1]) 2 1).2.map SessionResponse.state =
        some PomodoroState.Paused)
    ∧ ((get_session (runOps (runOps initialState [Op.create 0 0, Op.start 1 0])
        [Op.start 1 5]) 5 1).2.map SessionResponse.elapsed_secs = some 5) :=
  ⟨rfl, rfl, rfl, rfl⟩

/-- C2 counterexample: the reachable state after `create(1,1)`, `start(1)` at
instant 0 and `pause(1)` at instant 0 stores session 1 with state `Paused`
while `started_at` is still `some 0` — `pause_session` does not clear
`started_at`, so `started_at = Some` does not imply `state = Running`. -/
theorem C2_started_not_iff_running :
    (findS 1 (runOps initialState
        [Op.create 1 1, Op.start 1 0, Op.pause 1 0]).sessions).map
      PomodoroSession.state = some PomodoroState.Paused
    ∧ (findS 1 (runOps initialState
        [Op.create 1 1, Op.start 1 0, Op.pause 1 0]).sessions).map
      PomodoroSession.started_at = some (some 0) :=
  ⟨rfl, rfl⟩

/-- C2 (amended): in every registry state reachable from the initial one by
any sequence of operations, a stored session whose state is `Running` has
`started_at ≠ none`.  (The claimed converse fails: `pause` leaves a stale
`some` behind, see the counterexample.) -/
theorem C2_running_has_started_at (ops : List Op) (id : Nat)
    (s : PomodoroSession)
    (hfind : findS id (runOps initialState ops).sessions = some s)
    (hrun : s.state = PomodoroState.Running) : s.started_at ≠ none :=
  startedInv_runOps initialState ops startedInv_initial _
    (findS_mem id s _ hfind) hrun

theorem C2_running_has_started_at_witness :
    ({ id := 1, work_minutes := 1, break_minutes := 1,
       state := PomodoroState.Running, started_at := some 0,
       paused_at := none, elapsed_secs := 0 } : PomodoroSession).started_at ≠
      none :=
  C2_running_has_started_at [Op.create 1 1, Op.start 1 0] 1 _ (by decide) rfl

/-- C4: `update_elapsed` on a `Running` session with start instant `t0` adds
the zero-clamped (saturating) wall-clock delta `now - t0` to `elapsed_secs`,
resets `started_at` to `now`, transitions to `Finished` exactly when the
accumulated total reaches `work_minutes * 60` (staying `Running` otherwise),
adds nothing on an immediate second reconcile at the same instant, and leaves
any session that is not `Running` completely unchanged. -/
theorem C4_update_elapsed_spec (s : PomodoroSession) (now t0 : Nat)
    (h1 : s.state = PomodoroState.Running) (h2 : s.started_at = some t0) :
    (update_elapsed now s).elapsed_secs = s.elapsed_secs + (now - t0)
    ∧ (update_elapsed now s).started_at = some now
    ∧ ((update_elapsed now s).state = PomodoroState.Finished ↔
        total_work_secs s ≤ s.elapsed_secs + (now - t0))
    ∧ (¬total_work_secs s ≤ s.elapsed_secs + (now - t0) →
        (update_elapsed now s).state = PomodoroState.Running)
    ∧ update_elapsed now (update_elapsed now s) = update_elapsed now s
    ∧ (∀ s2 : PomodoroSession, s2.state ≠ PomodoroState.Running →
        update_elapsed now s2 = s2) := by
  have he := update_elapsed_running s now t0 h1 h2
  refine ⟨?_, ?_, ?_, ?_, update_elapsed_idem now s,
    fun s2 h => update_elapsed_not_running s2 now h⟩
  · rw [he]
  · rw [he]
  · rw [he]
    by_cases hc : total_work_secs s ≤ s.elapsed_secs + (now - t0)
    · simp [hc]
    · simp [hc]
  · intro hc
    rw [he]
    simp [hc]

theorem C4_update_elapsed_spec_witness :
    (update_elapsed 5
      { id := 1, work_minutes := 1, break_minutes := 1,
        state := PomodoroState.Running, started_at := some 2,
        paused_at := none, elapsed_secs := 10 }).elapsed_secs = 10 + (5 - 2) :=
  (C4_update_elapsed_spec _ 5 2 rfl rfl).1

/-- C5: `start_session` on a stored `Idle` or `Finished` session resets
`elapsed_secs` to 0, sets `started_at` to the current instant, sets the state
to `Running`, and returns the reconciled snapshot of the restarted session;
on a stored `Running` or `Paused` session it leaves the registry completely
unchanged and returns the reconciled snapshot of the current session. -/
theorem C5_start_spec (st : AppState) (id : Nat) (s : PomodoroSession)
    (n1 n2 : Nat) (hfind : findS id st.sessions = some s) :
    ((s.state = PomodoroState.Idle ∨ s.state = PomodoroState.Finished) →
      findS id (start_session st n1 n2 id).1.sessions =
        some { s with
               elapsed_secs := 0
               started_at := some n1
               paused_at := none
               state := PomodoroState.Running }
      ∧ (start_session st n1 n2 id).2 =
        some (to_response n2
          { s with
            elapsed_secs := 0
            started_at := some n1
            paused_at := none
            state := PomodoroState.Running }))
    ∧ ((s.state = PomodoroState.Running ∨ s.state = PomodoroState.Paused) →
      (start_session st n1 n2 id).1 = st
      ∧ (start_session st n1 n2 id).2 = some (to_response n2 s)) := by
  have hpair : start_session st n1 n2 id =
      ({ st with
         sessions := setFirst id
           (if s.state = PomodoroState.Idle ∨ s.state = PomodoroState.Finished
            then { s with
                   elapsed_secs := 0
                   started_at := some n1
                   paused_at := none
                   state := PomodoroState.Running }
            else s) st.sessions },
       some (to_response n2
         (if s.state = PomodoroState.Idle ∨ s.state = PomodoroState.Finished
          then { s with
                 elapsed_secs := 0
                 started_at := some n1
                 paused_at := none
                 state := PomodoroState.Running }
          else s))) := by
    simp only [start_session]
    rw [hfind]
  rw [hpair]
  constructor
  · intro hor
    rw [if_pos hor]
    exact ⟨findS_setFirst_self id _ s st.sessions hfind, rfl⟩
  · intro hor
    have hc : ¬(s.state = PomodoroState.Idle ∨
        s.state = PomodoroState.Finished) := by
      rcases hor with h | h <;> rw [h] <;> rintro (he | he) <;>
        exact PomodoroState.noConfusion he
    rw [if_neg hc, setFirst_self id s st.sessions hfind]
    exact ⟨rfl, rfl⟩

theorem C5_start_spec_witness :
    findS 1 (start_session (create_session initialState 0 25 5).1 4 4 1).1.sessions =
      some { PomodoroSession.new 1 25 5 with
             elapsed_secs := 0
             started_at := some 4
             paused_at := none
             state := PomodoroState.Running } :=
  ((C5_start_spec _ 1 (PomodoroSession.new 1 25 5) 4 4 (by decide)).1
    (Or.inl rfl)).1

/-- C6: `pause_session` on a stored `Running` session stores the
reconciliation (at the pause instant) of that session with state overwritten
to `Paused`; from then on the stored session is untouched by any number of
further `get`/`list`/`pause` calls, and reconciling it at any later instant
adds nothing to `elapsed_secs` (the elapsed time is frozen); `pause_session`
on a session in any other state leaves the registry unchanged. -/
theorem C6_pause_spec (st : AppState) (id : Nat) (s : PomodoroSession)
    (n1 n2 : Nat) (hfind : findS id st.sessions = some s) :
    (s.state = PomodoroState.Running →
      findS id (pause_session st n1 n2 id).1.sessions =
        some { update_elapsed n1 s with state := PomodoroState.Paused }
      ∧ (∀ ops : List Op, (∀ op ∈ ops, Op.isGetListPause op = true) →
          findS id (runOps (pause_session st n1 n2 id).1 ops).sessions =
            some { update_elapsed n1 s with state := PomodoroState.Paused })
      ∧ (∀ n : Nat,
          (update_elapsed n
            { update_elapsed n1 s with
              state := PomodoroState.Paused }).elapsed_secs =
          (update_elapsed n1 s).elapsed_secs))
    ∧ (s.state ≠ PomodoroState.Running → (pause_session st n1 n2 id).1 = st) := by
  constructor
  · intro hrun
    have hfst : (pause_session st n1 n2 id).1 =
        { st with
          sessions := setFirst id
            { update_elapsed n1 s with state := PomodoroState.Paused }
            st.sessions } := by
      rw [pause_session_fst st n1 n2 id, stepOp_pause_some st id n1 s hfind,
        if_pos hrun]
    rw [hfst]
    have hfind2 : findS id (setFirst id
        { update_elapsed n1 s with state := PomodoroState.Paused }
        st.sessions) =
        some { update_elapsed n1 s with state := PomodoroState.Paused } :=
      findS_setFirst_self id _ s st.sessions hfind
    refine ⟨hfind2, ?_, ?_⟩
    · intro ops hops
      exact paused_frozen _ id _ ops hops hfind2 rfl
    · intro n
      rw [update_elapsed_not_running
        { update_elapsed n1 s with state := PomodoroState.Paused } n
        (fun he => PomodoroState.noConfusion he)]
  · intro hnr
    rw [pause_session_fst st n1 n2 id, stepOp_pause_some st id n1 s hfind,
      if_neg hnr, setFirst_self id s st.sessions hfind]

theorem C6_pause_spec_witness :
    findS 1 (pause_session (runOps initialState [Op.create 25 5, Op.start 1 2])
        10 10 1).1.sessions =
      some { update_elapsed 10
          { id := 1, work_minutes := 25, break_minutes := 5,
            state := PomodoroState.Running, started_at := some 2,
            paused_at := none, elapsed_secs := 0 } with
          state := PomodoroState.Paused } :=
  ((C6_pause_spec (runOps initialState [Op.create 25 5, Op.start 1 2]) 1
      { id := 1, work_minutes := 25, break_minutes := 5,
        state := PomodoroState.Running, started_at := some 2,
        paused_at := none, elapsed_secs := 0 }
      10 10 (by decide)).1 rfl).1

/-- C7: every snapshot built by `to_response` (the only way any read path
answers) satisfies `remaining_secs = max(0, work_minutes*60 - elapsed_secs)`
over the integers, where `elapsed_secs` is the post-reconciliation value; in
the naturals it is exactly the truncated difference computed by
`remaining_secs`. -/
theorem C7_remaining_spec (now : Nat) (s : PomodoroSession) :
    ((to_response now s).remaining_secs : Int) =
      max 0 (((to_response now s).work_minutes : Int) * 60 -
        ((to_response now s).elapsed_secs : Int))
    ∧ (to_response now s).elapsed_secs = (update_elapsed now s).elapsed_secs
    ∧ (to_response now s).remaining_secs =
      total_work_secs (update_elapsed now s) -
        (update_elapsed now s).elapsed_secs := by
  refine ⟨?_, rfl, rfl⟩
  have h1 : (to_response now s).remaining_secs =
      (update_elapsed now s).work_minutes * 60 -
        (update_elapsed now s).elapsed_secs := rfl
  have h2 : (to_response now s).work_minutes =
      (update_elapsed now s).work_minutes := rfl
  have h3 : (to_response now s).elapsed_secs =
      (update_elapsed now s).elapsed_secs := rfl
  rw [h1, h2, h3]
  omega

/-- C8: `create_session` always succeeds for any pair of inputs: it bumps the
id counter by exactly one, stores a fresh session under id `next_id + 1` with
state `Idle` and `elapsed_secs = 0`, and returns the snapshot of that session,
whose `remaining_secs` is the full countdown `work_minutes * 60` (equal to the
zero-clamped difference, since nothing has elapsed). -/
theorem C8_create_spec (st : AppState) (now wm bm : Nat) :
    (create_session st now wm bm).1.next_id = st.next_id + 1
    ∧ findS (st.next_id + 1) (create_session st now wm bm).1.sessions =
        some (PomodoroSession.new (st.next_id + 1) wm bm)
    ∧ (PomodoroSession.new (st.next_id + 1) wm bm).state = PomodoroState.Idle
    ∧ (PomodoroSession.new (st.next_id + 1) wm bm).elapsed_secs = 0
    ∧ (create_session st now wm bm).2 =
        { id := st.next_id + 1
          work_minutes := wm
          break_minutes := bm
          state := PomodoroState.Idle
          elapsed_secs := 0
          remaining_secs := wm * 60 }
    ∧ (((create_session st now wm bm).2.remaining_secs : Int) =
        max 0 ((wm : Int) * 60 - 0)) := by
  refine ⟨rfl, findS_insertS_self _ _ _, rfl, rfl, rfl, ?_⟩
  have h1 : (create_session st now wm bm).2.remaining_secs = wm * 60 := rfl
  rw [h1]
  omega

/-- C9: `get`, `start`, `pause` and `resume` answer `NotFound` (modelled as
`none`) precisely when the requested id is absent from the registry, and in
that case the registry — the id counter and every stored session — is left
completely unchanged (for `get` the registry is unchanged unconditionally). -/
theorem C9_notfound_spec (st : AppState) (id n1 n2 : Nat) :
    ((get_session st n1 id).2 = none ↔ findS id st.sessions = none)
    ∧ (get_session st n1 id).1 = st
    ∧ ((start_session st n1 n2 id).2 = none ↔ findS id st.sessions = none)
    ∧ (findS id st.sessions = none → (start_session st n1 n2 id).1 = st)
    ∧ ((pause_session st n1 n2 id).2 = none ↔ findS id st.sessions = none)
    ∧ (findS id st.sessions = none → (pause_session st n1 n2 id).1 = st)
    ∧ ((resume_session st n1 n2 id).2 = none ↔ findS id st.sessions = none)
    ∧ (findS id st.sessions = none → (resume_session st n1 n2 id).1 = st) := by
  cases h : findS id st.sessions with
  | none =>
      simp [get_session, start_session, pause_session, resume_session, h]
  | some s =>
      simp [get_session, start_session, pause_session, resume_session, h]

theorem C9_notfound_spec_witness :
    (start_session initialState 0 0 7).1 = initialState :=
  (C9_notfound_spec initialState 7 0 0).2.2.2.1 rfl

/-- C10: `get_session` and `list_sessions` never modify the stored registry
state: the state component of their result is exactly the input registry, and
their responses are computed from `to_response` applied to clones of the
stored sessions. -/
theorem C10_reads_pure (st : AppState) (now id : Nat) :
    (get_session st now id).1 = st
    ∧ (list_sessions st now).1 = st
    ∧ (get_session st now id).2 = (findS id st.sessions).map (to_response now)
    ∧ (list_sessions st now).2 =
        st.sessions.map (fun p => to_response now p.2) :=
  ⟨rfl, rfl, rfl, rfl⟩
